import Mathlib

/-!
Shallow embedding of `src/analysis.py` (mesh-block median price growth
pipeline).  Prices and medians are modelled as exact rationals; the
float column `median_price_growth_yoy` is modelled by `PVal`, whose
`nan` constructor models a pandas missing value (NaN, i.e. an "absent"
cell) and whose `inf`/`ninf` constructors model IEEE infinities.
-/

namespace MBGrowth

/-- Model of an IEEE float cell as pandas sees it: `nan` is the missing
value marker, `inf`/`ninf` the two infinities, `fin q` a finite value. -/
inductive PVal where
  | nan : PVal
  | ninf : PVal
  | fin (q : ℚ) : PVal
  | inf : PVal
deriving DecidableEq

/-- IEEE addition on `PVal` (used to model `Series.mean`): NaN is
absorbing, `inf + (-inf)` is NaN, an infinity absorbs finite values. -/
def PVal.add : PVal → PVal → PVal
  | .nan, _ => .nan
  | _, .nan => .nan
  | .inf, .ninf => .nan
  | .ninf, .inf => .nan
  | .inf, _ => .inf
  | _, .inf => .inf
  | .ninf, _ => .ninf
  | _, .ninf => .ninf
  | .fin a, .fin b => .fin (a + b)

/-- Division of a `PVal` by a (positive) sample count, modelling the
final step of `Series.mean`. -/
def PVal.divNat : PVal → Nat → PVal
  | .fin q, n => .fin (q / (n : ℚ))
  | v, _ => v

/-- Multiplication by the scalar 100 at line 98 of `analysis.py`
(`pct_change() * 100`); infinities and NaN are unchanged. -/
def PVal.scale100 : PVal → PVal
  | .fin q => .fin (q * 100)
  | v => v

/-- Total comparison on `PVal` used to model pandas sorting of the
growth column: `nan ≤ ninf ≤ fin _ ≤ inf` (NaN never survives to a
sort in this pipeline, `nlargest` drops it first). -/
def PVal.leB : PVal → PVal → Bool
  | .nan, _ => true
  | .ninf, .nan => false
  | .ninf, _ => true
  | .fin _, .nan => false
  | .fin _, .ninf => false
  | .fin a, .fin b => decide (a ≤ b)
  | .fin _, .inf => true
  | .inf, .inf => true
  | .inf, _ => false

def pvalLe (a b : PVal) : Prop := PVal.leB a b = true

instance : DecidableRel pvalLe := fun a b => instDecidableEqBool (PVal.leB a b) true

/-- Kernel-computable lexicographic strict order on character lists,
by code point; it agrees with the code-point order Python/pandas use
when sorting the string mesh-block codes and property ids. -/
def charsLtB : List Char → List Char → Bool
  | [], [] => false
  | [], _ :: _ => true
  | _ :: _, [] => false
  | a :: as, b :: bs =>
    if a.val.toNat < b.val.toNat then true
    else if b.val.toNat < a.val.toNat then false
    else charsLtB as bs

/-- Strict order on strings (by code points). -/
def strLtB (s t : String) : Bool := charsLtB s.data t.data

/-- String/Int lexicographic key order used for
`sort_values(by=[GNAF_MESH_BLOCK_COL, 'year'])` (line 97) and the
sorted group keys a pandas `groupby` produces (line 91). -/
def keyLeB (a b : String × Int) : Bool :=
  strLtB a.1 b.1 || (a.1 == b.1 && decide (a.2 ≤ b.2))

def keyLe (a b : String × Int) : Prop := keyLeB a b = true

instance : DecidableRel keyLe := fun a b => instDecidableEqBool (keyLeB a b) true

/-- Model of a raw key cell in a parquet column: pandas may hold the
same identifier as a string or a number; `astype(str)` (lines 65-66)
canonicalises both to a string. -/
inductive PandasCell where
  | pstr (s : String) : PandasCell
  | pint (n : Int) : PandasCell
deriving DecidableEq

/-- Model of `Series.astype(str)` on a key cell. -/
def PandasCell.astypeStr : PandasCell → String
  | .pstr s => s
  | .pint n => toString n

/-- Calendar date of a sale; only `year` is consumed (line 84,
`dt.year`), but month/day are kept to model a full date-only value. -/
structure SaleDate where
  year : Int
  month : Nat
  day : Nat
deriving DecidableEq

/-- Row of the transactions table after loading.  `price = none`
models a value `pd.to_numeric(errors='coerce')` (line 80) turns into
NaN; `date_sold = none` models a value `pd.to_datetime(errors='coerce')`
(line 81) turns into NaT. -/
structure Transaction where
  gnaf_pid : PandasCell
  price : Option ℚ
  date_sold : Option SaleDate
deriving DecidableEq

/-- Row of the GNAF property table; `mb_2016_code = none` models a
null mesh-block cell (dropped by `dropna` at line 82). -/
structure PropertyRow where
  gnaf_pid : PandasCell
  mb_2016_code : Option String
deriving DecidableEq

/-- Transaction row extended with the mesh-block column by the merge
(lines 69-73). -/
structure MergedRow where
  gnaf_pid : PandasCell
  price : Option ℚ
  date_sold : Option SaleDate
  mb_2016_code : Option String
deriving DecidableEq

/-- Cleaned transaction (output of lines 80-84): non-null price above
the minimum, valid date reduced to its year, non-null mesh block. -/
structure CleanRow where
  mb_2016_code : String
  year : Int
  price : ℚ
deriving DecidableEq

/-- Model of `drop_duplicates(subset=[GNAF_PROP_ID_COL])` (line 67) on
the stringified key: keep the first occurrence of each key, tracking
the set of keys already seen. -/
def dedupByKey : List String → List PropertyRow → List PropertyRow
  | _, [] => []
  | seen, r :: rest =>
    if r.gnaf_pid.astypeStr ∈ seen then dedupByKey seen rest
    else r :: dedupByKey (r.gnaf_pid.astypeStr :: seen) rest

def drop_duplicates (gnaf : List PropertyRow) : List PropertyRow :=
  dedupByKey [] gnaf

def joinRow (t : Transaction) (g : PropertyRow) : MergedRow :=
  ⟨t.gnaf_pid, t.price, t.date_sold, g.mb_2016_code⟩

/-- Model of the inner `merge` on the stringified key (lines 69-73):
each transaction row is paired with every property row whose key
matches; unmatched transactions disappear. -/
def merge_inner (trans : List Transaction) (gnaf : List PropertyRow) : List MergedRow :=
  trans.flatMap fun t =>
    (gnaf.filter fun g => g.gnaf_pid.astypeStr == t.gnaf_pid.astypeStr).map (joinRow t)

/-- Cleaning of one merged row (lines 80-84): drop it if price, date
or mesh block is missing, or if the price is not strictly above
10000; otherwise derive the year. -/
def cleanRow (r : MergedRow) : Option CleanRow :=
  match r.price, r.date_sold, r.mb_2016_code with
  | some p, some d, some mb => if 10000 < p then some ⟨mb, d.year, p⟩ else none
  | _, _, _ => none

def clean (merged : List MergedRow) : List CleanRow :=
  merged.filterMap cleanRow

/-- Fatal conditions of the spec's error taxonomy; the script realises
both as a printed message plus `sys.exit(1)`. -/
inductive PipelineError where
  | ConfigurationError : PipelineError
  | EmptyResultError : PipelineError
deriving DecidableEq

/-- Model of `process_transactions` (lines 57-86).  The flag
`gnafHasMeshBlockCol` models the schema check of line 61
(`GNAF_MESH_BLOCK_COL not in gnaf_df.columns`).  Note that the
zero-row check of lines 76-78 runs on the raw merge result, before
the cleaning of lines 80-84. -/
def process_transactions (gnafHasMeshBlockCol : Bool) (gnaf : List PropertyRow)
    (trans : List Transaction) : Except PipelineError (List CleanRow) :=
  if ¬ gnafHasMeshBlockCol then .error .ConfigurationError
  else
    let merged := merge_inner trans (drop_duplicates gnaf)
    if merged.length = 0 then .error .EmptyResultError
    else .ok (clean merged)

/-- Fixed configuration constants of the script (lines 23-24). -/
def LAST_N_YEARS_FOR_GROWTH : Int := 5

def MINIMUM_SALES_COUNT : Nat := 3

/-- Internal row of `metrics_with_count` (line 92): group key plus the
aggregated `median` and `count` columns. -/
structure MetricBase where
  mb_2016_code : String
  year : Int
  median : ℚ
  count : Nat
deriving DecidableEq

/-- Output row of the aggregator after the rename of line 100. -/
structure MetricRow where
  mb_2016_code : String
  year : Int
  median_price : ℚ
  sales_count : Nat
  median_price_growth_yoy : PVal
deriving DecidableEq

def MetricBase.key (m : MetricBase) : String × Int := (m.mb_2016_code, m.year)

def baseLe (a b : MetricBase) : Prop := keyLe a.key b.key

instance : DecidableRel baseLe := fun a b => instDecidableEqBool (keyLeB a.key b.key) true

/-- Sorted list of the distinct `(mesh block, year)` keys of the
cleaned table; `groupby` (line 91) produces its groups in this key
order. -/
def groupKeys (rows : List CleanRow) : List (String × Int) :=
  List.insertionSort keyLe ((rows.map fun r => (r.mb_2016_code, r.year)).dedup)

/-- Price values of one `(mesh block, year)` group, in row order. -/
def groupPrices (rows : List CleanRow) (k : String × Int) : List ℚ :=
  (rows.filter fun r => (r.mb_2016_code, r.year) == k).map (·.price)

def qle (a b : ℚ) : Prop := a ≤ b

instance : DecidableRel qle := fun a b => Rat.instDecidableLe a b

/-- Model of `Series.median()`: middle element of the sorted values
for an odd count, average of the two middle elements for an even
count (0 for an empty group, which the aggregator never produces). -/
def median (xs : List ℚ) : ℚ :=
  let s := List.insertionSort qle xs
  if s.length % 2 = 1 then s.getD (s.length / 2) 0
  else (s.getD (s.length / 2 - 1) 0 + s.getD (s.length / 2) 0) / 2

/-- The spec's "standard linear-interpolation definition" of the
median: the value interpolated at position `(n - 1) / 2` of the
sorted list. -/
def medianLinInterp (xs : List ℚ) : ℚ :=
  let s := List.insertionSort qle xs
  let n := s.length
  let lo := (n - 1) / 2
  let h : ℚ := ((n : ℚ) - 1) / 2
  s.getD lo 0 + (h - (lo : ℚ)) * (s.getD (lo + 1) 0 - s.getD lo 0)

/-- Model of `grouped.agg(['median', 'count'])` (lines 91-92). -/
def metricsWithCount (rows : List CleanRow) : List MetricBase :=
  (groupKeys rows).map fun k =>
    ⟨k.1, k.2, median (groupPrices rows k), (groupPrices rows k).length⟩

/-- Lines 94 and 97: drop the groups with fewer than
`MINIMUM_SALES_COUNT` transactions, then sort by (mesh block, year). -/
def sortedBase (rows : List CleanRow) : List MetricBase :=
  List.insertionSort baseLe
    ((metricsWithCount rows).filter fun m => decide (MINIMUM_SALES_COUNT ≤ m.count))

/-- Model of one step of `Series.pct_change()`: `cur / prev - 1` in
IEEE arithmetic.  A zero previous value gives an infinity (or NaN when
the current value is also zero), exactly as float division does. -/
def pct_change (prev cur : ℚ) : PVal :=
  if prev = 0 then
    (if cur = 0 then PVal.nan else if 0 < cur then PVal.inf else PVal.ninf)
  else PVal.fin (cur / prev - 1)

/-- Model of lines 98-100: walk the sorted metric rows carrying the
previous row's mesh block and median; the first row of each mesh-block
run gets NaN, every other row gets `pct_change * 100` against the row
just before it (since the list is sorted by (mesh block, year), the
rows of one mesh block are contiguous, so the previous row of the
same mesh block is the adjacent one, which is what
`groupby(...)['median'].pct_change()` computes). -/
def withGrowth : Option (String × ℚ) → List MetricBase → List MetricRow
  | _, [] => []
  | prev, m :: rest =>
    let g : PVal :=
      match prev with
      | some (mb, pmed) =>
        if mb = m.mb_2016_code then PVal.scale100 (pct_change pmed m.median) else PVal.nan
      | none => PVal.nan
    ⟨m.mb_2016_code, m.year, m.median, m.count, g⟩ ::
      withGrowth (some (m.mb_2016_code, m.median)) rest

/-- Round half to even on exact rationals, the rounding
`numpy`/`pandas` `round` applies. -/
def roundHalfEven (x : ℚ) : ℤ :=
  if x - (⌊x⌋ : ℚ) < 1/2 then ⌊x⌋
  else if (1 : ℚ)/2 < x - (⌊x⌋ : ℚ) then ⌊x⌋ + 1
  else if ⌊x⌋ % 2 = 0 then ⌊x⌋ else ⌊x⌋ + 1

/-- Model of `round(0)` (line 101). -/
def round0 (x : ℚ) : ℚ := (roundHalfEven x : ℚ)

/-- Model of `round(2)` (line 102). -/
def round2 (x : ℚ) : ℚ := (roundHalfEven (x * 100) : ℚ) / 100

/-- Rounding to two decimals on a float cell: NaN and infinities pass
through unchanged. -/
def PVal.round2 : PVal → PVal
  | .fin q => .fin (MBGrowth.round2 q)
  | v => v

/-- Presentation rounding of lines 101-102 applied to one output row. -/
def roundMetricRow (m : MetricRow) : MetricRow :=
  { m with
    median_price := round0 m.median_price
    median_price_growth_yoy := m.median_price_growth_yoy.round2 }

/-- Model of `aggregate_growth` (lines 89-104): group, filter low
volume, sort, per-mesh-block percent change, then presentation
rounding. -/
def aggregate_growth (rows : List CleanRow) : List MetricRow :=
  (withGrowth none (sortedBase rows)).map roundMetricRow

/-- The aggregator through step 4 only, before the presentation
rounding of lines 101-102. -/
def aggregateUnrounded (rows : List CleanRow) : List MetricRow :=
  withGrowth none (sortedBase rows)

/-- The variant the spec rules out: the group medians are rounded to
whole units before the growth computation.  Defined only to show that
`aggregate_growth` does not behave like it. -/
def aggregateRoundedFirst (rows : List CleanRow) : List MetricRow :=
  (withGrowth none ((sortedBase rows).map fun m => { m with median := round0 m.median })).map
    fun m => { m with median_price_growth_yoy := m.median_price_growth_yoy.round2 }

/-- Ascending-by-value order on `(mesh block, mean growth)` entries,
for `sort_values(ascending=True)` (line 123). -/
def valAscLe (a b : String × PVal) : Prop := pvalLe a.2 b.2

instance : DecidableRel valAscLe := fun a b => instDecidableEqBool (PVal.leB a.2 b.2) true

/-- Descending-by-value order on the same entries; `nlargest` keeps
the first occurrence among ties, which a stable sort by this relation
reproduces. -/
def valDescLe (a b : String × PVal) : Prop := pvalLe b.2 a.2

instance : DecidableRel valDescLe := fun a b => instDecidableEqBool (PVal.leB b.2 a.2) true

def strLe (a b : String) : Prop := (strLtB a b || a == b) = true

instance : DecidableRel strLe := fun a b => instDecidableEqBool (strLtB a b || a == b) true

/-- Model of `Series.nlargest(k)` (lines 123 and 144): drop NaN
values, sort descending by value keeping first occurrences on ties,
take the first `k`. -/
def nlargest (k : Nat) (l : List (String × PVal)) : List (String × PVal) :=
  (List.insertionSort valDescLe (l.filter fun p => decide (p.2 ≠ PVal.nan))).take k

/-- Model of `metrics_df['year'].max()` (line 114); only used on a
non-empty table. -/
def maxYear (metrics : List MetricRow) : Int :=
  match metrics with
  | [] => 0
  | m :: rest => rest.foldl (fun acc r => max acc r.year) m.year

/-- Model of the windowed restriction of lines 116-119: keep rows of
the last `window` years that carry a defined growth value. -/
def recentGrowth (metrics : List MetricRow) (window : Int) : List MetricRow :=
  metrics.filter fun m =>
    decide (maxYear metrics - window < m.year) && decide (m.median_price_growth_yoy ≠ PVal.nan)

/-- Model of `recent_growth.groupby('mb_2016_code')[...].mean()`
(line 122): mean growth per mesh-block code, keys in sorted order as
`groupby` produces them. -/
def PVal.mean (l : List PVal) : PVal :=
  match l with
  | [] => .nan
  | _ => (l.foldl PVal.add (.fin 0)).divNat l.length

def avgGrowthByMb (recent : List MetricRow) : List (String × PVal) :=
  (List.insertionSort strLe ((recent.map fun m => m.mb_2016_code).dedup)).map fun g =>
    (g, PVal.mean ((recent.filter fun m => m.mb_2016_code == g).map
      fun m => m.median_price_growth_yoy))

/-- The spec's `rank_top` view over the aggregator output, realised
by lines 114-123 with `window = LAST_N_YEARS_FOR_GROWTH` and
`k = 10`: take the `k` mesh blocks of highest mean recent growth and
present them ascending by value. -/
def rank_top (metrics : List MetricRow) (window : Int) (k : Nat) : List (String × PVal) :=
  List.insertionSort valAscLe
    (nlargest k (avgGrowthByMb (recentGrowth metrics window)))

/-- Data handed to the two chart renderers by
`create_visualizations`: `none` models a skipped chart. -/
structure VizOutput where
  top10 : Option (List (String × PVal))
  history : Option (List MetricRow)
deriving DecidableEq

/-- Model of the data flow of `create_visualizations` (lines
107-185): nothing on an empty metrics table; the top-10 bar data when
the windowed restriction is non-empty; the full history of the
`nlargest(3)` mesh blocks when that history is non-empty (the code
guards the history block by `not top_10.empty`; when the top-10
series is empty the id list of `nlargest(3)` is empty too, so the
filtered history below is empty exactly when the code skips). -/
def create_visualizations (metrics : List MetricRow) : VizOutput :=
  if metrics.isEmpty then ⟨none, none⟩
  else
    let recent := recentGrowth metrics LAST_N_YEARS_FOR_GROWTH
    if recent.isEmpty then ⟨none, none⟩
    else
      let avg := avgGrowthByMb recent
      let top_10 := List.insertionSort valAscLe (nlargest 10 avg)
      let top_3_ids := (nlargest 3 avg).map Prod.fst
      let top_3_history := metrics.filter fun m => decide (m.mb_2016_code ∈ top_3_ids)
      ⟨some top_10, if top_3_history.isEmpty then none else some top_3_history⟩

/-- Concrete cleaned table for claim C1: mesh block "A" sells three
times in 2000 and 2003 but only twice in 2001, so 2001 is dropped and
the 2003 growth is computed against 2000. -/
def c1Rows : List CleanRow :=
  [⟨"A", 2000, 100⟩, ⟨"A", 2000, 200⟩, ⟨"A", 2000, 300⟩,
   ⟨"A", 2001, 150⟩, ⟨"A", 2001, 250⟩,
   ⟨"A", 2003, 300⟩, ⟨"A", 2003, 300⟩, ⟨"A", 2003, 300⟩]

/-- Concrete cleaned table for claim C2: the ("B", 2001) group has
only two sales and must be filtered out. -/
def c2Rows : List CleanRow :=
  [⟨"A", 2000, 100⟩, ⟨"A", 2000, 200⟩, ⟨"A", 2000, 300⟩,
   ⟨"B", 2001, 400⟩, ⟨"B", 2001, 600⟩]

/-- Concrete cleaned table for claim C3: both groups have an even
count and a fractional unrounded median (10001.5 and 20002), so
rounding the medians before the growth computation changes the
result. -/
def c3Rows : List CleanRow :=
  [⟨"A", 2000, 10001⟩, ⟨"A", 2000, 10001⟩, ⟨"A", 2000, 10002⟩, ⟨"A", 2000, 10002⟩,
   ⟨"A", 2001, 20001⟩, ⟨"A", 2001, 20001⟩, ⟨"A", 2001, 20003⟩, ⟨"A", 2001, 20003⟩]

/-- Property table for claim C4: one property with a mesh block. -/
def c4Gnaf : List PropertyRow := [⟨.pstr "P1", some "MB1"⟩]

/-- Transactions for claim C4: the single transaction joins (so the
merge is non-empty) but its price 5000 is below the minimum, so the
cleaned table is empty. -/
def c4Trans : List Transaction := [⟨.pstr "P1", some 5000, some ⟨2020, 3, 1⟩⟩]

/-- Cleaned table for claim C6, exercising both the odd-count and the
even-count median: group ("A", 2000) has prices
[100000, 150000, 200000], group ("B", 2000) has
[100000, 150000, 200000, 250000]. -/
def c6Rows : List CleanRow :=
  [⟨"A", 2000, 100000⟩, ⟨"A", 2000, 150000⟩, ⟨"A", 2000, 200000⟩,
   ⟨"B", 2000, 100000⟩, ⟨"B", 2000, 150000⟩, ⟨"B", 2000, 200000⟩, ⟨"B", 2000, 250000⟩]

/-- Metrics table for claim C8: three mesh blocks whose mean recent
growth is 5%, 10% and -2%. -/
def c8Metrics : List MetricRow :=
  [⟨"A", 2020, 100, 3, .nan⟩, ⟨"A", 2021, 105, 3, .fin 5⟩,
   ⟨"B", 2021, 110, 3, .fin 10⟩, ⟨"C", 2021, 98, 3, .fin (-2)⟩]

/-- Cleaned table for claim C9's counterexample: both retained groups
of mesh block "A" have median 0, so the growth of the 2001 row is the
float 0/0, i.e. NaN — indistinguishable from an absent value. -/
def c9zRows : List CleanRow :=
  [⟨"A", 2000, 0⟩, ⟨"A", 2000, 0⟩, ⟨"A", 2000, 0⟩,
   ⟨"A", 2001, 0⟩, ⟨"A", 2001, 0⟩, ⟨"A", 2001, 0⟩]

/-- Cleaned table for claim C9's amended statement: a zero-median
retained group followed by a positive-median one, giving growth
+inf. -/
def c9pRows : List CleanRow :=
  [⟨"A", 2000, 0⟩, ⟨"A", 2000, 0⟩, ⟨"A", 2000, 0⟩,
   ⟨"A", 2001, 100⟩, ⟨"A", 2001, 100⟩, ⟨"A", 2001, 100⟩]

/-- Metrics table for claim C10: two mesh blocks with a defined
recent growth, so both ranking and history are produced. -/
def c10Metrics : List MetricRow :=
  [⟨"A", 2020, 100, 3, .nan⟩, ⟨"A", 2021, 110, 3, .fin 10⟩,
   ⟨"B", 2020, 100, 3, .nan⟩, ⟨"B", 2021, 105, 3, .fin 5⟩]

theorem charsLtB_trans : ∀ {a b c : List Char},
    charsLtB a b = true → charsLtB b c = true → charsLtB a c = true := by
  intro a
  induction a with
  | nil =>
    intro b c hab hbc
    cases b with
    | nil => simp [charsLtB] at hab
    | cons y ys =>
      cases c with
      | nil => simp [charsLtB] at hbc
      | cons z zs => simp [charsLtB]
  | cons x xs ih =>
    intro b c hab hbc
    cases b with
    | nil => simp [charsLtB] at hab
    | cons y ys =>
      cases c with
      | nil => simp [charsLtB] at hbc
      | cons z zs =>
        simp only [charsLtB] at hab hbc ⊢
        split_ifs at hab hbc ⊢ <;> first | rfl | omega | exact ih hab hbc

theorem charsLtB_antisymm : ∀ {a b : List Char},
    charsLtB a b = false → charsLtB b a = false → a = b := by
  intro a
  induction a with
  | nil =>
    intro b hab _
    cases b with
    | nil => rfl
    | cons y ys => simp [charsLtB] at hab
  | cons x xs ih =>
    intro b hab hba
    cases b with
    | nil => simp [charsLtB] at hba
    | cons y ys =>
      simp only [charsLtB] at hab hba
      split_ifs at hab hba with h1 h2 <;> try omega
      have hx : x = y := Char.ext (UInt32.ext (by omega))
      exact hx ▸ congrArg (x :: ·) (ih hab hba)

theorem strLtB_antisymm {s t : String} (hst : strLtB s t = false)
    (hts : strLtB t s = false) : s = t :=
  String.ext (charsLtB_antisymm hst hts)

instance : IsTrans (String × Int) keyLe := by
  constructor
  intro a b c hab hbc
  simp only [keyLe, keyLeB, Bool.or_eq_true, Bool.and_eq_true, beq_iff_eq,
    decide_eq_true_eq] at hab hbc ⊢
  rcases hab with hab | ⟨hab, hab2⟩ <;> rcases hbc with hbc | ⟨hbc, hbc2⟩
  · exact Or.inl (charsLtB_trans hab hbc)
  · exact Or.inl (hbc ▸ hab)
  · exact Or.inl (hab ▸ hbc)
  · exact Or.inr ⟨hab.trans hbc, le_trans hab2 hbc2⟩

instance : IsTotal (String × Int) keyLe := by
  constructor
  intro a b
  simp only [keyLe, keyLeB, Bool.or_eq_true, Bool.and_eq_true, beq_iff_eq,
    decide_eq_true_eq]
  cases hab : strLtB a.1 b.1 with
  | true => exact Or.inl (Or.inl rfl)
  | false =>
    cases hba : strLtB b.1 a.1 with
    | true => exact Or.inr (Or.inl rfl)
    | false =>
      have h : a.1 = b.1 := strLtB_antisymm hab hba
      rcases Int.le_total a.2 b.2 with h2 | h2
      · exact Or.inl (Or.inr ⟨h, h2⟩)
      · exact Or.inr (Or.inr ⟨h.symm, h2⟩)

instance : IsTrans MetricBase baseLe :=
  ⟨fun _ _ _ hab hbc => Trans.trans (r := keyLe) (s := keyLe) hab hbc⟩

instance : IsTotal MetricBase baseLe :=
  ⟨fun a b => IsTotal.total (r := keyLe) a.key b.key⟩

instance : IsTrans String strLe := by
  constructor
  intro a b c hab hbc
  simp only [strLe, Bool.or_eq_true, beq_iff_eq] at hab hbc ⊢
  rcases hab with hab | hab <;> rcases hbc with hbc | hbc
  · exact Or.inl (charsLtB_trans hab hbc)
  · exact Or.inl (hbc ▸ hab)
  · exact Or.inl (hab ▸ hbc)
  · exact Or.inr (hab.trans hbc)

instance : IsTotal String strLe := by
  constructor
  intro a b
  simp only [strLe, Bool.or_eq_true, beq_iff_eq]
  cases hab : strLtB a b with
  | true => exact Or.inl (Or.inl rfl)
  | false =>
    cases hba : strLtB b a with
    | true => exact Or.inr (Or.inl rfl)
    | false => exact Or.inl (Or.inr (strLtB_antisymm hab hba))

theorem pvalLe_trans {a b c : PVal} (hab : pvalLe a b) (hbc : pvalLe b c) : pvalLe a c := by
  cases a <;> cases b <;> cases c <;>
    simp only [pvalLe, PVal.leB, decide_eq_true_eq] at hab hbc ⊢ <;>
    first
      | rfl
      | exact le_trans hab hbc
      | exact hab
      | exact hbc
      | exact absurd hab (by decide)
      | exact absurd hbc (by decide)

theorem pvalLe_total (a b : PVal) : pvalLe a b ∨ pvalLe b a := by
  cases a <;> cases b <;> simp [pvalLe, PVal.leB] <;> exact le_total _ _

instance : IsTrans (String × PVal) valAscLe := ⟨fun _ _ _ h h2 => pvalLe_trans h h2⟩

instance : IsTotal (String × PVal) valAscLe := ⟨fun a b => pvalLe_total a.2 b.2⟩

instance : IsTrans (String × PVal) valDescLe := ⟨fun _ _ _ h h2 => pvalLe_trans h2 h⟩

instance : IsTotal (String × PVal) valDescLe := ⟨fun a b => (pvalLe_total a.2 b.2).symm⟩

theorem withGrowth_length (p : Option (String × ℚ)) (l : List MetricBase) :
    (withGrowth p l).length = l.length := by
  induction l generalizing p with
  | nil => rfl
  | cons m rest ih => simp [withGrowth, ih]

theorem withGrowth_map_key (p : Option (String × ℚ)) (l : List MetricBase) :
    (withGrowth p l).map (fun m => (m.mb_2016_code, m.year)) =
      l.map (fun b => (b.mb_2016_code, b.year)) := by
  induction l generalizing p with
  | nil => rfl
  | cons m rest ih => simp [withGrowth, ih]

theorem withGrowth_get (p : Option (String × ℚ)) (l : List MetricBase) (i : Nat)
    (h : i < (withGrowth p l).length) (h' : i < l.length) :
    ((withGrowth p l).get ⟨i, h⟩).mb_2016_code = (l.get ⟨i, h'⟩).mb_2016_code ∧
    ((withGrowth p l).get ⟨i, h⟩).year = (l.get ⟨i, h'⟩).year ∧
    ((withGrowth p l).get ⟨i, h⟩).median_price = (l.get ⟨i, h'⟩).median ∧
    ((withGrowth p l).get ⟨i, h⟩).sales_count = (l.get ⟨i, h'⟩).count := by
  induction l generalizing p i with
  | nil => simp at h'
  | cons m rest ih =>
    cases i with
    | zero => simp [withGrowth]
    | succ j =>
      have hr : j < rest.length := by simpa using h'
      have hw : j < (withGrowth (some (m.mb_2016_code, m.median)) rest).length := by
        rw [withGrowth_length]; exact hr
      simpa [withGrowth] using ih (some (m.mb_2016_code, m.median)) j hw hr

theorem withGrowth_growth_head (l : List MetricBase)
    (h : 0 < (withGrowth none l).length) :
    ((withGrowth none l).get ⟨0, h⟩).median_price_growth_yoy = PVal.nan := by
  cases l with
  | nil => simp [withGrowth] at h
  | cons m rest => simp [withGrowth]

theorem withGrowth_growth_succ (p : Option (String × ℚ)) (l : List MetricBase) (i : Nat)
    (h : i + 1 < (withGrowth p l).length) (h1 : i + 1 < l.length) (h0 : i < l.length) :
    ((withGrowth p l).get ⟨i + 1, h⟩).median_price_growth_yoy =
      (if (l.get ⟨i, h0⟩).mb_2016_code = (l.get ⟨i + 1, h1⟩).mb_2016_code
       then PVal.scale100 (pct_change (l.get ⟨i, h0⟩).median (l.get ⟨i + 1, h1⟩).median)
       else PVal.nan) := by
  induction l generalizing p i with
  | nil => simp at h1
  | cons m rest ih =>
    cases i with
    | zero =>
      cases rest with
      | nil => simp at h1
      | cons b rest2 => simp [withGrowth]
    | succ j =>
      have hr1 : j + 1 < rest.length := by simpa using h1
      have hr0 : j < rest.length := by omega
      have hw : j + 1 < (withGrowth (some (m.mb_2016_code, m.median)) rest).length := by
        rw [withGrowth_length]; exact hr1
      simpa [withGrowth] using ih (some (m.mb_2016_code, m.median)) j hw hr1 hr0

theorem withGrowth_mem (p : Option (String × ℚ)) (l : List MetricBase) (m : MetricRow)
    (hm : m ∈ withGrowth p l) :
    ∃ b ∈ l, m.mb_2016_code = b.mb_2016_code ∧ m.year = b.year ∧
      m.median_price = b.median ∧ m.sales_count = b.count := by
  induction l generalizing p with
  | nil => simp [withGrowth] at hm
  | cons a rest ih =>
    simp only [withGrowth, List.mem_cons] at hm
    rcases hm with rfl | hm
    · exact ⟨a, List.mem_cons_self a rest, rfl, rfl, rfl, rfl⟩
    · obtain ⟨b, hb, hf⟩ := ih (some (a.mb_2016_code, a.median)) hm
      exact ⟨b, List.mem_cons_of_mem a hb, hf⟩

theorem metricsWithCount_mem {rows : List CleanRow} {m : MetricBase}
    (hm : m ∈ metricsWithCount rows) :
    m.median = median (groupPrices rows (m.mb_2016_code, m.year)) ∧
    m.count = (groupPrices rows (m.mb_2016_code, m.year)).length := by
  simp only [metricsWithCount, List.mem_map] at hm
  obtain ⟨k, _, rfl⟩ := hm
  constructor <;> simp

theorem sortedBase_mem {rows : List CleanRow} {m : MetricBase}
    (hm : m ∈ sortedBase rows) :
    m.median = median (groupPrices rows (m.mb_2016_code, m.year)) ∧
    m.count = (groupPrices rows (m.mb_2016_code, m.year)).length ∧
    MINIMUM_SALES_COUNT ≤ m.count := by
  have h1 : m ∈ (metricsWithCount rows).filter
      (fun m => decide (MINIMUM_SALES_COUNT ≤ m.count)) :=
    (List.perm_insertionSort baseLe _).mem_iff.mp hm
  rw [List.mem_filter, decide_eq_true_eq] at h1
  obtain ⟨h2, h3⟩ := metricsWithCount_mem h1.1
  exact ⟨h2, h3, h1.2⟩

theorem aggregate_growth_map_key (rows : List CleanRow) :
    (aggregate_growth rows).map (fun m => (m.mb_2016_code, m.year)) =
      (sortedBase rows).map (fun b => (b.mb_2016_code, b.year)) := by
  unfold aggregate_growth
  rw [List.map_map]
  exact withGrowth_map_key none (sortedBase rows)

theorem aggregate_growth_length (rows : List CleanRow) :
    (aggregate_growth rows).length = (sortedBase rows).length := by
  unfold aggregate_growth
  rw [List.length_map, withGrowth_length]

theorem aggregate_growth_get (rows : List CleanRow) (i : Nat)
    (h : i < (aggregate_growth rows).length)
    (hw : i < (withGrowth none (sortedBase rows)).length) :
    (aggregate_growth rows).get ⟨i, h⟩ =
      roundMetricRow ((withGrowth none (sortedBase rows)).get ⟨i, hw⟩) := by
  simp [aggregate_growth]

theorem roundMetricRow_mb (m : MetricRow) :
    (roundMetricRow m).mb_2016_code = m.mb_2016_code := rfl

theorem roundMetricRow_year (m : MetricRow) : (roundMetricRow m).year = m.year := rfl

theorem roundMetricRow_count (m : MetricRow) :
    (roundMetricRow m).sales_count = m.sales_count := rfl

theorem roundMetricRow_growth (m : MetricRow) :
    (roundMetricRow m).median_price_growth_yoy = m.median_price_growth_yoy.round2 := rfl

/-- C1: in the aggregator's output, rows are sorted by (mesh block,
year); the first row of each mesh-block run carries an absent (NaN)
growth, and every other row's growth is
`(median[i] / median[i-1] - 1) * 100` (then rounded to two decimals)
computed against the immediately preceding retained row of the same
mesh block — whatever calendar gap separates the two rows — using the
unrounded group medians. -/
theorem aggregate_growth_growth_vs_prev_retained (rows : List CleanRow) :
    List.Sorted keyLe ((aggregate_growth rows).map fun m => (m.mb_2016_code, m.year)) ∧
    (∀ h : 0 < (aggregate_growth rows).length,
      ((aggregate_growth rows).get ⟨0, h⟩).median_price_growth_yoy = PVal.nan) ∧
    (∀ (i : Nat) (h : i + 1 < (aggregate_growth rows).length)
        (h0 : i < (aggregate_growth rows).length),
      (((aggregate_growth rows).get ⟨i + 1, h⟩).mb_2016_code ≠
          ((aggregate_growth rows).get ⟨i, h0⟩).mb_2016_code →
        ((aggregate_growth rows).get ⟨i + 1, h⟩).median_price_growth_yoy = PVal.nan) ∧
      (((aggregate_growth rows).get ⟨i + 1, h⟩).mb_2016_code =
          ((aggregate_growth rows).get ⟨i, h0⟩).mb_2016_code →
        median (groupPrices rows (((aggregate_growth rows).get ⟨i, h0⟩).mb_2016_code,
          ((aggregate_growth rows).get ⟨i, h0⟩).year)) ≠ 0 →
        ((aggregate_growth rows).get ⟨i + 1, h⟩).median_price_growth_yoy =
          PVal.round2 (PVal.fin
            ((median (groupPrices rows
                (((aggregate_growth rows).get ⟨i + 1, h⟩).mb_2016_code,
                 ((aggregate_growth rows).get ⟨i + 1, h⟩).year)) /
              median (groupPrices rows
                (((aggregate_growth rows).get ⟨i, h0⟩).mb_2016_code,
                 ((aggregate_growth rows).get ⟨i, h0⟩).year)) - 1) * 100)))) := by
  refine ⟨?_, ?_, ?_⟩
  · rw [aggregate_growth_map_key]
    exact List.pairwise_map.mpr (List.sorted_insertionSort baseLe _)
  · intro h
    have hw : 0 < (withGrowth none (sortedBase rows)).length := by
      simpa [aggregate_growth] using h
    rw [aggregate_growth_get rows 0 h hw, roundMetricRow_growth,
      withGrowth_growth_head _ hw]
    rfl
  · intro i h h0
    have hw1 : i + 1 < (withGrowth none (sortedBase rows)).length := by
      simpa [aggregate_growth] using h
    have hw0 : i < (withGrowth none (sortedBase rows)).length := by omega
    have hb1 : i + 1 < (sortedBase rows).length := by
      rw [← withGrowth_length none]; exact hw1
    have hb0 : i < (sortedBase rows).length := by omega
    obtain ⟨e1mb, e1yr, e1med, _⟩ := withGrowth_get none (sortedBase rows) (i + 1) hw1 hb1
    obtain ⟨e0mb, e0yr, e0med, _⟩ := withGrowth_get none (sortedBase rows) i hw0 hb0
    have hgrow := withGrowth_growth_succ none (sortedBase rows) i hw1 hb1 hb0
    obtain ⟨m1med, _, _⟩ := sortedBase_mem (List.get_mem (sortedBase rows) (i + 1) hb1)
    obtain ⟨m0med, _, _⟩ := sortedBase_mem (List.get_mem (sortedBase rows) i hb0)
    rw [aggregate_growth_get rows (i + 1) h hw1, aggregate_growth_get rows i h0 hw0,
      roundMetricRow_mb, roundMetricRow_mb, roundMetricRow_year, roundMetricRow_year,
      roundMetricRow_growth, e1mb, e1yr, e0mb, e0yr]
    constructor
    · intro hne
      rw [hgrow, if_neg fun hmb => hne hmb.symm]
      rfl
    · intro heq hmed
      rw [hgrow, if_pos heq.symm, m1med, m0med]
      simp only [pct_change]
      rw [if_neg hmed]
      rfl

/-- Witness for C1 at `c1Rows`: the retained rows of mesh block "A"
are the years 2000 and 2003 (2001 is dropped for low volume); the
2000 row's growth is absent and the 2003 row's growth is
`(300 / 200 - 1) * 100 = 50`, computed against the year 2000. -/
theorem aggregate_growth_growth_vs_prev_retained_witness :
    ((aggregate_growth c1Rows).get ⟨0, by decide⟩).year = 2000 ∧
    ((aggregate_growth c1Rows).get ⟨1, by decide⟩).year = 2003 ∧
    ((aggregate_growth c1Rows).get ⟨0, by decide⟩).median_price_growth_yoy = PVal.nan ∧
    ((aggregate_growth c1Rows).get ⟨1, by decide⟩).median_price_growth_yoy = PVal.fin 50 := by
  obtain ⟨_, hhead, hstep⟩ := aggregate_growth_growth_vs_prev_retained c1Rows
  have h1 := (hstep 0 (by decide) (by decide)).2 (by decide) (by decide)
  refine ⟨by decide, by decide, hhead (by decide), h1.trans ?_⟩
  simp +decide [c1Rows, groupPrices, median, qle, List.insertionSort, List.orderedInsert,
    aggregate_growth, sortedBase, metricsWithCount, groupKeys, List.dedup, withGrowth,
    roundMetricRow, MINIMUM_SALES_COUNT, baseLe, MetricBase.key, PVal.round2, round2,
    round0, pct_change, PVal.scale100]
  norm_num [roundHalfEven]

/-- C2: every aggregator output row has `sales_count` at least
`MINIMUM_SALES_COUNT` (3), and no (mesh block, year) group whose
transaction count is below that minimum appears in the output. -/
theorem aggregate_growth_min_sales (rows : List CleanRow) :
    (∀ m ∈ aggregate_growth rows, MINIMUM_SALES_COUNT ≤ m.sales_count) ∧
    (∀ (mb : String) (y : Int), (groupPrices rows (mb, y)).length < MINIMUM_SALES_COUNT →
      ∀ m ∈ aggregate_growth rows, ¬(m.mb_2016_code = mb ∧ m.year = y)) := by
  have key : ∀ m ∈ aggregate_growth rows,
      MINIMUM_SALES_COUNT ≤ m.sales_count ∧
      m.sales_count = (groupPrices rows (m.mb_2016_code, m.year)).length := by
    intro m hm
    simp only [aggregate_growth, List.mem_map] at hm
    obtain ⟨m1, hm1, rfl⟩ := hm
    obtain ⟨b, hb, hfmb, hfyr, _, hfct⟩ := withGrowth_mem none (sortedBase rows) m1 hm1
    obtain ⟨_, hct, hmin⟩ := sortedBase_mem hb
    rw [roundMetricRow_count, roundMetricRow_mb, roundMetricRow_year, hfct, hfmb, hfyr]
    exact ⟨hmin, hct⟩
  refine ⟨fun m hm => (key m hm).1, ?_⟩
  rintro mb y hlen m hm ⟨hmb, hy⟩
  obtain ⟨hmin, hct⟩ := key m hm
  rw [hct, hmb, hy] at hmin
  omega

/-- Witness for C2 at `c2Rows`: the ("A", 2000) group with three
sales survives with `sales_count = 3`, and the two-sale ("B", 2001)
group is absent from the output. -/
theorem aggregate_growth_min_sales_witness :
    MINIMUM_SALES_COUNT ≤ (⟨"A", 2000, 200, 3, PVal.nan⟩ : MetricRow).sales_count ∧
    ¬((⟨"A", 2000, 200, 3, PVal.nan⟩ : MetricRow).mb_2016_code = "B" ∧
      (⟨"A", 2000, 200, 3, PVal.nan⟩ : MetricRow).year = 2001) := by
  have hagg : aggregate_growth c2Rows = [⟨"A", 2000, 200, 3, PVal.nan⟩] := by
    simp +decide [c2Rows, groupPrices, median, qle, List.insertionSort, List.orderedInsert,
      aggregate_growth, sortedBase, metricsWithCount, groupKeys, List.dedup, withGrowth,
      roundMetricRow, MINIMUM_SALES_COUNT, baseLe, MetricBase.key, PVal.round2, round2,
      round0, pct_change, PVal.scale100]
    norm_num [roundHalfEven]
  have hmem : (⟨"A", 2000, 200, 3, PVal.nan⟩ : MetricRow) ∈ aggregate_growth c2Rows := by
    rw [hagg]; exact List.mem_singleton_self _
  exact ⟨(aggregate_growth_min_sales c2Rows).1 _ hmem,
    (aggregate_growth_min_sales c2Rows).2 "B" 2001 (by decide) _ hmem⟩

/-- C3: rounding is presentation-only.  The aggregator equals the
unrounded pipeline (group medians, growth from unrounded medians)
followed by a per-row rounding map; on `c3Rows` (unrounded medians
10001.5 and 20002) it reports growth 99.99, whereas the variant that
rounds the medians first would report 99.98, so the rounded median
demonstrably never feeds the growth computation; the output median
itself is rounded to a whole unit (10001.5 → 10002). -/
theorem aggregate_growth_rounding_presentation :
    (∀ rows : List CleanRow,
      aggregate_growth rows = (aggregateUnrounded rows).map roundMetricRow) ∧
    (aggregate_growth c3Rows).map (fun m => m.median_price_growth_yoy) =
      [PVal.nan, PVal.fin (9999 / 100)] ∧
    (aggregateRoundedFirst c3Rows).map (fun m => m.median_price_growth_yoy) =
      [PVal.nan, PVal.fin (9998 / 100)] ∧
    (aggregate_growth c3Rows).map (fun m => m.median_price) = [10002, 20002] := by
  refine ⟨fun rows => rfl, ?_, ?_, ?_⟩ <;>
    · simp +decide [c3Rows, groupPrices, median, qle, List.insertionSort, List.orderedInsert,
        aggregate_growth, aggregateRoundedFirst, sortedBase, metricsWithCount, groupKeys,
        List.dedup, withGrowth, roundMetricRow, MINIMUM_SALES_COUNT, baseLe, MetricBase.key,
        PVal.round2, round2, round0, pct_change, PVal.scale100]
      norm_num [roundHalfEven]

/-- C6: the aggregator's median is the standard sorted-middle
definition and coincides with the linear-interpolation definition on
every non-empty group; the spec's two hand-built examples evaluate to
150000 and 175000, also through the full aggregator; and every output
row's `median_price` is the (rounded) median of its group's prices. -/
theorem median_matches_sorted_middle :
    (∀ xs : List ℚ, xs ≠ [] → median xs = medianLinInterp xs) ∧
    median [100000, 150000, 200000] = 150000 ∧
    median [100000, 150000, 200000, 250000] = 175000 ∧
    (∀ rows : List CleanRow, ∀ m ∈ aggregate_growth rows,
      m.median_price = round0 (median (groupPrices rows (m.mb_2016_code, m.year)))) ∧
    (aggregate_growth c6Rows).map (fun m => m.median_price) = [150000, 175000] := by
  refine ⟨?_, ?_, ?_, ?_, ?_⟩
  · intro xs hxs
    simp only [median, medianLinInterp]
    set s := List.insertionSort qle xs with hs
    have hlen : s.length = xs.length := (List.perm_insertionSort qle xs).length_eq
    have hpos : 0 < s.length := by
      rw [hlen]
      exact List.length_pos.mpr hxs
    rcases Nat.even_or_odd s.length with ⟨m, hm⟩ | ⟨m, hm⟩
    · have hm1 : 1 ≤ m := by omega
      have hdiv : s.length / 2 = m := by omega
      have hdiv2 : (s.length - 1) / 2 = m - 1 := by omega
      rw [if_neg (by omega), hdiv, hdiv2]
      have hcast : ((s.length : ℚ) - 1) / 2 - ((m - 1 : ℕ) : ℚ) = 1 / 2 := by
        have hql : (s.length : ℚ) = 2 * (m : ℚ) := by
          rw [hm]; push_cast; ring
        rw [hql]
        push_cast [hm1]
        ring
      have hidx : m - 1 + 1 = m := by omega
      rw [hidx, hcast]
      ring
    · have hdiv : s.length / 2 = m := by omega
      have hdiv2 : (s.length - 1) / 2 = m := by omega
      rw [if_pos (by omega), hdiv, hdiv2]
      have hcast : ((s.length : ℚ) - 1) / 2 - (m : ℚ) = 0 := by
        have hql : (s.length : ℚ) = 2 * (m : ℚ) + 1 := by
          rw [hm]; push_cast; ring
        rw [hql]
        ring
      rw [hcast]
      ring
  · norm_num [median, qle, List.insertionSort, List.orderedInsert]
  · norm_num [median, qle, List.insertionSort, List.orderedInsert]
  · intro rows m hm
    simp only [aggregate_growth, List.mem_map] at hm
    obtain ⟨m1, hm1, rfl⟩ := hm
    obtain ⟨b, hb, hfmb, hfyr, hfmed, _⟩ := withGrowth_mem none (sortedBase rows) m1 hm1
    obtain ⟨hmed, _, _⟩ := sortedBase_mem hb
    show round0 m1.median_price = _
    rw [roundMetricRow_mb, roundMetricRow_year, hfmb, hfyr, hfmed, hmed]
  · simp +decide [c6Rows, groupPrices, median, qle, List.insertionSort, List.orderedInsert,
      aggregate_growth, sortedBase, metricsWithCount, groupKeys, List.dedup, withGrowth,
      roundMetricRow, MINIMUM_SALES_COUNT, baseLe, MetricBase.key, PVal.round2, round2,
      round0, pct_change, PVal.scale100]
    norm_num [roundHalfEven]

/-- Witness for C6: the general median/interpolation equality applied
to the spec's odd-count example. -/
theorem median_matches_sorted_middle_witness :
    ([100000, 150000, 200000] : List ℚ) ≠ [] ∧
    median [100000, 150000, 200000] = medianLinInterp [100000, 150000, 200000] := by
  refine ⟨by simp, median_matches_sorted_middle.1 _ (by simp)⟩

/-- C9 counterexample: on `c9zRows` both retained groups of mesh
block "A" have (unrounded) median 0; the later row's growth is the
float 0/0, i.e. NaN — the very value that encodes "absent" — so the
claim that the growth is then present rather than absent fails. -/
theorem aggregate_growth_zero_over_zero_absent :
    (aggregate_growth c9zRows).map
        (fun m => (m.mb_2016_code, m.year, m.median_price, m.median_price_growth_yoy)) =
      [("A", 2000, 0, PVal.nan), ("A", 2001, 0, PVal.nan)] := by
  simp +decide [c9zRows, groupPrices, median, qle, List.insertionSort, List.orderedInsert,
    aggregate_growth, sortedBase, metricsWithCount, groupKeys, List.dedup, withGrowth,
    roundMetricRow, MINIMUM_SALES_COUNT, baseLe, MetricBase.key, PVal.round2, round2,
    round0, pct_change, PVal.scale100]
  norm_num [roundHalfEven]

/-- C9 amended: the division is indeed unguarded, but the result is
present only when the later median is itself nonzero: a retained row
whose previous retained row (same mesh block) has unrounded median 0
gets growth `+inf` (or `-inf` for a negative median) — a defined,
non-NaN value — whenever its own median is nonzero; when both medians
are 0 the float 0/0 is NaN, indistinguishable from absent. -/
theorem aggregate_growth_zero_prev_median_unguarded (rows : List CleanRow) (i : Nat)
    (h : i + 1 < (aggregate_growth rows).length) (h0 : i < (aggregate_growth rows).length)
    (hmb : ((aggregate_growth rows).get ⟨i + 1, h⟩).mb_2016_code =
      ((aggregate_growth rows).get ⟨i, h0⟩).mb_2016_code)
    (hprev : median (groupPrices rows (((aggregate_growth rows).get ⟨i, h0⟩).mb_2016_code,
      ((aggregate_growth rows).get ⟨i, h0⟩).year)) = 0)
    (hcur : median (groupPrices rows (((aggregate_growth rows).get ⟨i + 1, h⟩).mb_2016_code,
      ((aggregate_growth rows).get ⟨i + 1, h⟩).year)) ≠ 0) :
    ((aggregate_growth rows).get ⟨i + 1, h⟩).median_price_growth_yoy =
      (if 0 < median (groupPrices rows
          (((aggregate_growth rows).get ⟨i + 1, h⟩).mb_2016_code,
           ((aggregate_growth rows).get ⟨i + 1, h⟩).year))
       then PVal.inf else PVal.ninf) ∧
    ((aggregate_growth rows).get ⟨i + 1, h⟩).median_price_growth_yoy ≠ PVal.nan := by
  have aux : ∀ q : ℚ, q ≠ 0 →
      (PVal.scale100 (pct_change 0 q)).round2 = if 0 < q then PVal.inf else PVal.ninf := by
    intro q hq
    simp only [pct_change, if_pos rfl, if_neg hq]
    split_ifs <;> rfl
  have hw1 : i + 1 < (withGrowth none (sortedBase rows)).length := by
    simpa [aggregate_growth] using h
  have hw0 : i < (withGrowth none (sortedBase rows)).length := by omega
  have hb1 : i + 1 < (sortedBase rows).length := by
    rw [← withGrowth_length none]; exact hw1
  have hb0 : i < (sortedBase rows).length := by omega
  obtain ⟨e1mb, e1yr, _, _⟩ := withGrowth_get none (sortedBase rows) (i + 1) hw1 hb1
  obtain ⟨e0mb, e0yr, _, _⟩ := withGrowth_get none (sortedBase rows) i hw0 hb0
  have hgrow := withGrowth_growth_succ none (sortedBase rows) i hw1 hb1 hb0
  obtain ⟨m1med, _, _⟩ := sortedBase_mem (List.get_mem (sortedBase rows) (i + 1) hb1)
  obtain ⟨m0med, _, _⟩ := sortedBase_mem (List.get_mem (sortedBase rows) i hb0)
  rw [aggregate_growth_get rows (i + 1) h hw1] at hmb hcur ⊢
  rw [aggregate_growth_get rows i h0 hw0] at hmb hprev
  rw [roundMetricRow_mb, roundMetricRow_mb, e1mb, e0mb] at hmb
  rw [roundMetricRow_mb, roundMetricRow_year, e0mb, e0yr] at hprev
  rw [roundMetricRow_mb, roundMetricRow_year, e1mb, e1yr] at hcur
  rw [roundMetricRow_mb, roundMetricRow_year, roundMetricRow_growth, e1mb, e1yr,
    hgrow, if_pos hmb.symm, m0med, hprev, m1med, aux _ hcur]
  constructor
  · rfl
  · split_ifs <;> simp

/-- Witness for C9's amended statement at `c9pRows`: medians 0 then
100, so the 2001 row's growth is `+inf`, present rather than
absent. -/
theorem aggregate_growth_zero_prev_median_unguarded_witness :
    ((aggregate_growth c9pRows).get ⟨1, by decide⟩).median_price_growth_yoy = PVal.inf ∧
    ((aggregate_growth c9pRows).get ⟨1, by decide⟩).median_price_growth_yoy ≠ PVal.nan := by
  obtain ⟨hval, hnan⟩ := aggregate_growth_zero_prev_median_unguarded c9pRows 0
    (by decide) (by decide) (by decide) (by decide) (by decide)
  exact ⟨hval.trans (by decide), hnan⟩

theorem dedupByKey_filter (k : String) (l : List PropertyRow) : ∀ seen : List String,
    (dedupByKey seen l).filter (fun g => g.gnaf_pid.astypeStr == k) =
      if k ∈ seen then [] else (l.find? fun g => g.gnaf_pid.astypeStr == k).toList := by
  induction l with
  | nil =>
    intro seen
    simp [dedupByKey]
  | cons r rest ih =>
    intro seen
    simp only [dedupByKey]
    by_cases hr : r.gnaf_pid.astypeStr ∈ seen
    · rw [if_pos hr, ih seen]
      by_cases hk : k ∈ seen
      · rw [if_pos hk, if_pos hk]
      · have hrk : (r.gnaf_pid.astypeStr == k) = false := by
          rw [beq_eq_false_iff_ne]
          intro he
          exact hk (he ▸ hr)
        rw [if_neg hk, if_neg hk, List.find?_cons_of_neg _ (by simp [hrk])]
    · rw [if_neg hr]
      rw [List.filter_cons]
      cases hrk : (r.gnaf_pid.astypeStr == k) with
      | true =>
        have hke : r.gnaf_pid.astypeStr = k := eq_of_beq hrk
        by_cases hk : k ∈ seen
        · exact absurd (hke ▸ hk) hr
        · rw [if_pos rfl, ih (r.gnaf_pid.astypeStr :: seen),
            if_pos (hke ▸ List.mem_cons_self r.gnaf_pid.astypeStr seen), if_neg hk]
          simp [List.find?_cons, hrk]
      | false =>
        rw [if_neg (by simp), ih (r.gnaf_pid.astypeStr :: seen)]
        by_cases hk : k ∈ seen
        · rw [if_pos (List.mem_cons_of_mem _ hk), if_pos hk]
        · have hne : k ∉ r.gnaf_pid.astypeStr :: seen := by
            intro hm
            rcases List.mem_cons.mp hm with he | hm2
            · rw [beq_eq_false_iff_ne] at hrk
              exact hrk he.symm
            · exact hk hm2
          rw [if_neg hne, if_neg hk, List.find?_cons_of_neg _ (by simp [hrk])]

/-- C5: the join is inner, the property table is deduplicated
first-occurrence-wins on the stringified key before the merge, and
unmatched transactions are dropped: the merge equals a per-transaction
lookup of the FIRST property row whose stringified key matches.  The
concrete conjuncts instantiate the spec's duplicate-key example
(P1 → MB1 wins over MB2), show a numeric key 123 matching the string
key "123" after coercion, and show an unmatched transaction being
dropped silently. -/
theorem merge_inner_dedup_first_wins :
    (∀ (trans : List Transaction) (gnaf : List PropertyRow),
      merge_inner trans (drop_duplicates gnaf) =
        trans.filterMap fun t =>
          (gnaf.find? fun g => g.gnaf_pid.astypeStr == t.gnaf_pid.astypeStr).map (joinRow t)) ∧
    merge_inner [⟨.pstr "P1", some 500000, some ⟨2020, 1, 1⟩⟩]
        (drop_duplicates [⟨.pstr "P1", some "MB1"⟩, ⟨.pstr "P1", some "MB2"⟩]) =
      [⟨.pstr "P1", some 500000, some ⟨2020, 1, 1⟩, some "MB1"⟩] ∧
    merge_inner [⟨.pint 123, some 500000, some ⟨2020, 1, 1⟩⟩]
        (drop_duplicates [⟨.pstr "123", some "MB9"⟩]) =
      [⟨.pint 123, some 500000, some ⟨2020, 1, 1⟩, some "MB9"⟩] ∧
    merge_inner [⟨.pstr "P2", some 500000, some ⟨2020, 1, 1⟩⟩]
        (drop_duplicates [⟨.pstr "P1", some "MB1"⟩]) = [] := by
  refine ⟨?_, by decide, by decide, by decide⟩
  intro trans gnaf
  unfold merge_inner drop_duplicates
  induction trans with
  | nil => rfl
  | cons t rest ih =>
    rw [List.flatMap_cons, List.filterMap_cons, ih,
      dedupByKey_filter t.gnaf_pid.astypeStr gnaf []]
    rw [if_neg (List.not_mem_nil t.gnaf_pid.astypeStr)]
    cases hfind : gnaf.find? fun g => g.gnaf_pid.astypeStr == t.gnaf_pid.astypeStr with
    | none => rfl
    | some g => rfl

/-- C4 counterexample: on `c4Gnaf`/`c4Trans` the join is non-empty
(so the zero-row check of lines 76-78 passes) but cleaning drops the
single 5000-priced row, and `process_transactions` returns an empty
cleaned table successfully instead of raising `EmptyResultError`;
aggregation then runs and yields an empty output. -/
theorem process_transactions_clean_empty_no_error :
    process_transactions true c4Gnaf c4Trans = Except.ok [] ∧
    merge_inner c4Trans (drop_duplicates c4Gnaf) ≠ [] ∧
    clean (merge_inner c4Trans (drop_duplicates c4Gnaf)) = [] ∧
    aggregate_growth [] = [] :=
  ⟨rfl, by decide, by decide, rfl⟩

/-- C4 amended: the empty-result check runs on the raw join result,
before cleaning: `EmptyResultError` is raised exactly when the inner
join (after dedup) yields zero rows, and whenever the join is
non-empty the pipeline returns the cleaned table — even when cleaning
has dropped every row — so aggregation runs on it. -/
theorem process_transactions_empty_check_at_join (gnaf : List PropertyRow)
    (trans : List Transaction) :
    (process_transactions true gnaf trans = .error .EmptyResultError ↔
      merge_inner trans (drop_duplicates gnaf) = []) ∧
    (merge_inner trans (drop_duplicates gnaf) ≠ [] →
      process_transactions true gnaf trans =
        .ok (clean (merge_inner trans (drop_duplicates gnaf)))) := by
  have hred : process_transactions true gnaf trans =
      (if (merge_inner trans (drop_duplicates gnaf)).length = 0
       then .error .EmptyResultError
       else .ok (clean (merge_inner trans (drop_duplicates gnaf)))) := rfl
  rw [hred]
  constructor
  · constructor
    · intro he
      by_cases hl : (merge_inner trans (drop_duplicates gnaf)).length = 0
      · exact List.length_eq_zero.mp hl
      · rw [if_neg hl] at he
        exact absurd he (by simp)
    · intro hnil
      rw [if_pos (by rw [hnil]; rfl)]
  · intro hne
    rw [if_neg fun hl => hne (List.length_eq_zero.mp hl)]

/-- Witness for C4's amended statement: on the C4 input the join is
non-empty, and the theorem yields the `Except.ok` outcome with the
(empty) cleaned table. -/
theorem process_transactions_empty_check_at_join_witness :
    process_transactions true c4Gnaf c4Trans =
      Except.ok (clean (merge_inner c4Trans (drop_duplicates c4Gnaf))) :=
  (process_transactions_empty_check_at_join c4Gnaf c4Trans).2 (by decide)

/-- C7: every cleaned row has price strictly above 10000; a 9999 or
exactly-10000 price is dropped while 10001 is retained; a row whose
price or date failed to parse (modelled as an absent cell, since
`errors='coerce'` never raises) is dropped, as is a row with a null
mesh block; `clean` is a total function, so cleaning never errors on
bad individual rows. -/
theorem clean_price_and_parse_filter :
    (∀ (merged : List MergedRow) (c : CleanRow), c ∈ clean merged → 10000 < c.price) ∧
    clean [⟨.pstr "P1", some 9999, some ⟨2020, 1, 15⟩, some "MB"⟩] = [] ∧
    clean [⟨.pstr "P1", some 10000, some ⟨2020, 1, 15⟩, some "MB"⟩] = [] ∧
    clean [⟨.pstr "P1", some 10001, some ⟨2020, 1, 15⟩, some "MB"⟩] = [⟨"MB", 2020, 10001⟩] ∧
    clean [⟨.pstr "P1", none, some ⟨2020, 1, 15⟩, some "MB"⟩] = [] ∧
    clean [⟨.pstr "P1", some 500000, none, some "MB"⟩] = [] ∧
    clean [⟨.pstr "P1", some 500000, some ⟨2020, 1, 15⟩, none⟩] = [] := by
  refine ⟨?_, by decide, by decide, by decide, by decide, by decide, by decide⟩
  intro merged c hc
  simp only [clean, List.mem_filterMap] at hc
  obtain ⟨r, _, hr⟩ := hc
  simp only [cleanRow] at hr
  cases hp : r.price with
  | none => rw [hp] at hr; simp at hr
  | some p =>
    cases hd : r.date_sold with
    | none => rw [hp, hd] at hr; simp at hr
    | some d =>
      cases hm : r.mb_2016_code with
      | none => rw [hp, hd, hm] at hr; simp at hr
      | some mb =>
        rw [hp, hd, hm] at hr
        simp only at hr
        split_ifs at hr with hlt
        cases hr
        exact hlt

/-- Witness for C7: the retained 10001-priced row satisfies the
price bound. -/
theorem clean_price_and_parse_filter_witness :
    (10000 : ℚ) < (⟨"MB", 2020, 10001⟩ : CleanRow).price := by
  have hmem : (⟨"MB", 2020, 10001⟩ : CleanRow) ∈
      clean [⟨.pstr "P1", some 10001, some ⟨2020, 1, 15⟩, some "MB"⟩] := by decide
  exact clean_price_and_parse_filter.1 _ _ hmem

theorem avgGrowthByMb_mem {recent : List MetricRow} {p : String × PVal}
    (hp : p ∈ avgGrowthByMb recent) :
    p.2 = PVal.mean ((recent.filter fun m => m.mb_2016_code == p.1).map
      fun m => m.median_price_growth_yoy) ∧
    ∃ r ∈ recent, r.mb_2016_code = p.1 := by
  simp only [avgGrowthByMb, List.mem_map] at hp
  obtain ⟨g, hg, rfl⟩ := hp
  refine ⟨rfl, ?_⟩
  have hg2 : g ∈ (recent.map fun m => m.mb_2016_code).dedup :=
    (List.perm_insertionSort strLe _).mem_iff.mp hg
  rw [List.mem_dedup, List.mem_map] at hg2
  obtain ⟨r, hr, rfl⟩ := hg2
  exact ⟨r, hr, rfl⟩

theorem nlargest_subset {k : Nat} {l : List (String × PVal)} {p : String × PVal}
    (hp : p ∈ nlargest k l) : p ∈ l ∧ p.2 ≠ PVal.nan := by
  unfold nlargest at hp
  have h1 := List.take_subset k _ hp
  have h2 := (List.perm_insertionSort valDescLe _).mem_iff.mp h1
  rw [List.mem_filter, decide_eq_true_eq] at h2
  exact h2

theorem recentGrowth_mem {metrics : List MetricRow} {window : Int} {r : MetricRow}
    (hr : r ∈ recentGrowth metrics window) :
    r ∈ metrics ∧ maxYear metrics - window < r.year ∧
      r.median_price_growth_yoy ≠ PVal.nan := by
  rw [recentGrowth, List.mem_filter, Bool.and_eq_true, decide_eq_true_eq,
    decide_eq_true_eq] at hr
  exact ⟨hr.1, hr.2.1, hr.2.2⟩

theorem nlargest_maximal {k : Nat} {l : List (String × PVal)} {p q : String × PVal}
    (hp : p ∈ nlargest k l) (hq : q ∈ l) (hqn : q.2 ≠ PVal.nan)
    (hqo : q ∉ nlargest k l) : pvalLe q.2 p.2 := by
  unfold nlargest at hp hqo
  have hsorted : List.Sorted valDescLe
      (List.insertionSort valDescLe (l.filter fun p => decide (p.2 ≠ PVal.nan))) :=
    List.sorted_insertionSort _ _
  have hqs : q ∈ List.insertionSort valDescLe (l.filter fun p => decide (p.2 ≠ PVal.nan)) :=
    (List.perm_insertionSort _ _).mem_iff.mpr
      (List.mem_filter.mpr ⟨hq, decide_eq_true hqn⟩)
  rw [← List.take_append_drop k
    (List.insertionSort valDescLe (l.filter fun p => decide (p.2 ≠ PVal.nan)))] at hqs
  rcases List.mem_append.mp hqs with h | h
  · exact absurd h hqo
  · exact hsorted.rel_of_mem_take_of_mem_drop hp h

theorem take3_mem_take10 {α : Type} (l : List α) {x : α} (hx : x ∈ List.take 3 l) :
    x ∈ List.take 10 l := by
  have h : List.take 3 l = List.take 3 (List.take 10 l) := by
    rw [List.take_take]
    norm_num
  exact List.take_subset 3 _ (h ▸ hx)

theorem rank_top_mem_aux {metrics : List MetricRow} {window : Int} {k : Nat}
    {p : String × PVal} (hp : p ∈ rank_top metrics window k) :
    p ∈ nlargest k (avgGrowthByMb (recentGrowth metrics window)) :=
  (List.perm_insertionSort valAscLe _).mem_iff.mp hp

/-- C8: `rank_top` (the windowed ranking realised in
`create_visualizations`) returns at most `k` entries, sorted
ascending by value for bar presentation; every entry is the mean
growth of one mesh block over the windowed rows with a defined growth
value; every returned entry's value is at least the value of every
qualifying entry that was not selected; `create_visualizations`
publishes exactly `rank_top` with the code's window (5 years) and
`k = 10`; and on the spec's example (means 5%, 10%, -2%, top 2) the
result is [5%, 10%] in ascending order. -/
theorem rank_top_spec :
    (∀ (metrics : List MetricRow) (window : Int) (k : Nat),
      (rank_top metrics window k).length ≤ k ∧
      List.Sorted valAscLe (rank_top metrics window k) ∧
      (∀ p ∈ rank_top metrics window k,
        p.2 = PVal.mean (((recentGrowth metrics window).filter
          fun m => m.mb_2016_code == p.1).map fun m => m.median_price_growth_yoy) ∧
        ∃ r ∈ metrics, r.mb_2016_code = p.1 ∧ maxYear metrics - window < r.year ∧
          r.median_price_growth_yoy ≠ PVal.nan) ∧
      (∀ p ∈ rank_top metrics window k,
        ∀ q ∈ avgGrowthByMb (recentGrowth metrics window), q.2 ≠ PVal.nan →
          q ∉ nlargest k (avgGrowthByMb (recentGrowth metrics window)) →
          pvalLe q.2 p.2)) ∧
    (∀ metrics : List MetricRow, metrics ≠ [] →
      recentGrowth metrics LAST_N_YEARS_FOR_GROWTH ≠ [] →
      (create_visualizations metrics).top10 =
        some (rank_top metrics LAST_N_YEARS_FOR_GROWTH 10)) ∧
    rank_top c8Metrics LAST_N_YEARS_FOR_GROWTH 2 =
      [("A", PVal.fin 5), ("B", PVal.fin 10)] := by
  refine ⟨?_, ?_, ?_⟩
  · intro metrics window k
    refine ⟨?_, ?_, ?_, ?_⟩
    · rw [rank_top, (List.perm_insertionSort valAscLe _).length_eq, nlargest,
        List.length_take]
      omega
    · exact List.sorted_insertionSort _ _
    · intro p hp
      have h1 := nlargest_subset (rank_top_mem_aux hp)
      obtain ⟨hmean, r, hr, hrmb⟩ := avgGrowthByMb_mem h1.1
      obtain ⟨hrm, hry, hrg⟩ := recentGrowth_mem hr
      exact ⟨hmean, r, hrm, hrmb, hry, hrg⟩
    · intro p hp q hq hqn hqo
      exact nlargest_maximal (rank_top_mem_aux hp) hq hqn hqo
  · intro metrics h1 h2
    simp only [create_visualizations, rank_top]
    rw [if_neg (by simpa [List.isEmpty_iff] using h1),
      if_neg (by simpa [List.isEmpty_iff] using h2)]
  · have havg : avgGrowthByMb (recentGrowth c8Metrics LAST_N_YEARS_FOR_GROWTH) =
        [("A", PVal.fin 5), ("B", PVal.fin 10), ("C", PVal.fin (-2))] := by
      simp +decide [avgGrowthByMb, recentGrowth, c8Metrics, maxYear, List.insertionSort,
        List.orderedInsert, List.dedup, strLe, PVal.mean, PVal.add, PVal.divNat,
        LAST_N_YEARS_FOR_GROWTH]
    rw [rank_top, havg]
    decide

/-- C10: whenever the history view is produced, its rows are exactly
the metrics rows of the mesh blocks selected by `nlargest 3` over the
same windowed mean-growth series as the top-10 ranking, the top-10
ranking was produced and is non-empty, and every mesh block appearing
in the history is among the top-10 ranking's mesh blocks. -/
theorem create_visualizations_top3 (metrics : List MetricRow) (rows : List MetricRow)
    (hh : (create_visualizations metrics).history = some rows) :
    (rows = metrics.filter fun m => decide (m.mb_2016_code ∈
      (nlargest 3 (avgGrowthByMb
        (recentGrowth metrics LAST_N_YEARS_FOR_GROWTH))).map Prod.fst)) ∧
    ∃ t10, (create_visualizations metrics).top10 = some t10 ∧ t10 ≠ [] ∧
      ∀ r ∈ rows, r.mb_2016_code ∈ t10.map Prod.fst := by
  by_cases h1 : metrics.isEmpty
  · simp [create_visualizations, h1] at hh
  by_cases h2 : (recentGrowth metrics LAST_N_YEARS_FOR_GROWTH).isEmpty
  · simp [create_visualizations, h1, h2] at hh
  have hcv : create_visualizations metrics =
      ⟨some (List.insertionSort valAscLe (nlargest 10
          (avgGrowthByMb (recentGrowth metrics LAST_N_YEARS_FOR_GROWTH)))),
        if (metrics.filter fun m => decide (m.mb_2016_code ∈
            (nlargest 3 (avgGrowthByMb
              (recentGrowth metrics LAST_N_YEARS_FOR_GROWTH))).map Prod.fst)).isEmpty
        then none
        else some (metrics.filter fun m => decide (m.mb_2016_code ∈
          (nlargest 3 (avgGrowthByMb
            (recentGrowth metrics LAST_N_YEARS_FOR_GROWTH))).map Prod.fst))⟩ := by
    simp only [create_visualizations]
    rw [if_neg h1, if_neg h2]
  rw [hcv] at hh
  simp only at hh
  split_ifs at hh with hhist
  have hrows : rows = metrics.filter fun m => decide (m.mb_2016_code ∈
      (nlargest 3 (avgGrowthByMb
        (recentGrowth metrics LAST_N_YEARS_FOR_GROWTH))).map Prod.fst) :=
    (Option.some_inj.mp hh).symm
  refine ⟨hrows, List.insertionSort valAscLe (nlargest 10
      (avgGrowthByMb (recentGrowth metrics LAST_N_YEARS_FOR_GROWTH))), by rw [hcv], ?_, ?_⟩
  · have hne : (metrics.filter fun m => decide (m.mb_2016_code ∈
        (nlargest 3 (avgGrowthByMb
          (recentGrowth metrics LAST_N_YEARS_FOR_GROWTH))).map Prod.fst)) ≠ [] := by
      simpa [List.isEmpty_iff] using hhist
    obtain ⟨r, hr⟩ := List.exists_mem_of_ne_nil _ hne
    have hr2 := List.mem_filter.mp hr
    rw [decide_eq_true_eq] at hr2
    obtain ⟨p, hp3, hpmb⟩ := List.mem_map.mp hr2.2
    have hp10 : p ∈ nlargest 10 (avgGrowthByMb
        (recentGrowth metrics LAST_N_YEARS_FOR_GROWTH)) := by
      rw [nlargest] at hp3 ⊢
      exact take3_mem_take10 _ hp3
    intro hnil
    rw [← (List.perm_insertionSort valAscLe _).mem_iff] at hp10
    rw [hnil] at hp10
    exact List.not_mem_nil p hp10
  · intro r hr
    rw [hrows] at hr
    have hr2 := List.mem_filter.mp hr
    rw [decide_eq_true_eq] at hr2
    obtain ⟨p, hp3, hpmb⟩ := List.mem_map.mp hr2.2
    have hp10 : p ∈ nlargest 10 (avgGrowthByMb
        (recentGrowth metrics LAST_N_YEARS_FOR_GROWTH)) := by
      rw [nlargest] at hp3 ⊢
      exact take3_mem_take10 _ hp3
    rw [List.mem_map]
    exact ⟨p, (List.perm_insertionSort valAscLe _).mem_iff.mpr hp10, hpmb⟩

/-- Witness for C8 at `c8Metrics`: the entry ("A", 5%) of the
ranking is the mean of mesh block A's windowed growth values, and
`create_visualizations` publishes the `k = 10` ranking. -/
theorem rank_top_spec_witness :
    ("A", PVal.fin 5).2 = PVal.mean (((recentGrowth c8Metrics LAST_N_YEARS_FOR_GROWTH).filter
      fun m => m.mb_2016_code == ("A", PVal.fin 5).1).map
        fun m => m.median_price_growth_yoy) ∧
    (create_visualizations c8Metrics).top10 =
      some (rank_top c8Metrics LAST_N_YEARS_FOR_GROWTH 10) := by
  have hmem : (("A", PVal.fin 5) : String × PVal) ∈
      rank_top c8Metrics LAST_N_YEARS_FOR_GROWTH 2 := by
    rw [rank_top_spec.2.2]
    exact List.mem_cons_self _ _
  exact ⟨((rank_top_spec.1 c8Metrics LAST_N_YEARS_FOR_GROWTH 2).2.2.1 _ hmem).1,
    rank_top_spec.2.1 c8Metrics (by decide) (by decide)⟩

/-- Witness for C10 at `c10Metrics`: the history view contains every
row (both mesh blocks rank in the top 3), the top-10 ranking is the
non-empty ascending list [(B, 5%), (A, 10%)], and mesh block "A" of
the history indeed appears among the ranking's mesh blocks. -/
theorem create_visualizations_top3_witness :
    (create_visualizations c10Metrics).history = some c10Metrics ∧
    (create_visualizations c10Metrics).top10 =
      some [("B", PVal.fin 5), ("A", PVal.fin 10)] ∧
    ("A" : String) ∈ ([("B", PVal.fin 5), ("A", PVal.fin 10)] :
      List (String × PVal)).map Prod.fst := by
  have havg : avgGrowthByMb (recentGrowth c10Metrics LAST_N_YEARS_FOR_GROWTH) =
      [("A", PVal.fin 10), ("B", PVal.fin 5)] := by
    simp +decide [avgGrowthByMb, recentGrowth, c10Metrics, maxYear, List.insertionSort,
      List.orderedInsert, List.dedup, strLe, PVal.mean, PVal.add, PVal.divNat,
      LAST_N_YEARS_FOR_GROWTH]
  have hcv : create_visualizations c10Metrics =
      ⟨some [("B", PVal.fin 5), ("A", PVal.fin 10)], some c10Metrics⟩ := by
    simp only [create_visualizations]
    rw [havg]
    decide
  have hh : (create_visualizations c10Metrics).history = some c10Metrics := by
    rw [hcv]
  obtain ⟨-, t10, ht, -, hsub⟩ := create_visualizations_top3 c10Metrics c10Metrics hh
  have ht10 : t10 = [("B", PVal.fin 5), ("A", PVal.fin 10)] := by
    rw [hcv] at ht
    exact (Option.some_inj.mp ht).symm
  have hA := hsub ⟨"A", 2020, 100, 3, PVal.nan⟩ (by decide)
  rw [ht10] at hA
  exact ⟨hh, by rw [hcv], hA⟩

end MBGrowth
